import Mathlib

/-!
Verification of the RAG chat pipeline of this repository.

The development shallowly embeds the retrieval/ranking pipeline:

* `src/lib/search/hybrid.ts` (tokenisation, BM25, min-max normalisation,
  hybrid ranking) and
* `src/app/api/chat/route.ts` (embedding with local fallback, retrieval,
  LLM re-ranking, citation building, session handling, request handler).

Modelling conventions:

* JavaScript numbers are modelled as `ℚ` (the claims under study do not
  depend on floating-point rounding).
* `Math.log` is transcendental, so it is threaded through the definitions
  as an explicit parameter `lg : ℚ → ℚ`; every theorem quantifies over it,
  hence holds in particular for the real logarithm.
* Strings are Lean `String`s; the handful of JavaScript string operations
  used by the code (`trim`, `slice`, `toLowerCase`, `replace`, `split`,
  `.length`) are modelled character-list-wise below.
* External effects (the Voyage embeddings HTTP call, the pgvector query,
  the OpenAI calls, the database) are modelled as oracle data carried in
  an `Env` record; `runPOST` additionally returns the list of pipeline
  stages it invoked, in invocation order, so that claims of the form
  "stage X is never invoked" are expressible.
* `Array.prototype.sort` is stable for consistent comparators (ES2019),
  so the two descending sorts are modelled with the stable
  `List.insertionSort`.
-/

namespace Rag

open scoped List

/-! ## JavaScript string primitives -/

/-- Character class of the JavaScript regex `\s` restricted to ASCII
(space, tab, newline, carriage return, vertical tab, form feed).
The Unicode space characters also matched by `\s` are not modelled. -/
def isJsSpace (c : Char) : Bool :=
  c = ' ' || c = '\t' || c = '\n' || c = '\r' || c = '\x0b' || c = '\x0c'

/-- Models `String.prototype.trim`: strip leading and trailing whitespace. -/
def jsTrim (s : String) : String :=
  ⟨((s.data.dropWhile isJsSpace).reverse.dropWhile isJsSpace).reverse⟩

/-- Models `s.slice(0, n)`. -/
def jsSlice (s : String) (n : Nat) : String :=
  ⟨s.data.take n⟩

/-- Models `s.length` (for the ASCII strings involved here, UTF-16 units
coincide with characters). -/
def jsLength (s : String) : Nat :=
  s.data.length

/-- Models one character step of `.replace(/[^a-z0-9\s]/g, ' ')` (applied
after lower-casing, so `a`-`z` covers all letters). -/
def cleanChar (c : Char) : Char :=
  if ('a' ≤ c && c ≤ 'z') || ('0' ≤ c && c ≤ '9') || isJsSpace c then c else ' '

/-- Splits a character list at whitespace, producing the groups between
whitespace characters (empty groups included, as `split(/\s+/)` can produce
a leading empty string which the subsequent `.filter(Boolean)` removes). -/
def splitTokens (cs : List Char) : List (List Char) :=
  cs.foldr
    (fun c acc =>
      if isJsSpace c then [] :: acc
      else
        match acc with
        | [] => [[c]]
        | t :: ts => (c :: t) :: ts)
    []

/-- Models `tokenize` from `src/lib/search/hybrid.ts`:
lower-case, replace non-alphanumerics by spaces, split on whitespace,
drop empties. -/
def tokenize (text : String) : List String :=
  ((splitTokens ((text.data.map Char.toLower).map cleanChar)).filter
      (fun t => !t.isEmpty)).map (fun cs => ⟨cs⟩)

/-- Models one pass of `.replace(/\s+/g, ' ')`: the boolean argument
records whether the previous character was inside a whitespace run. -/
def collapseAux : List Char → Bool → List Char
  | [], _ => []
  | c :: cs, inRun =>
    if isJsSpace c then
      if inRun then collapseAux cs true else ' ' :: collapseAux cs true
    else c :: collapseAux cs false

/-- Models `s.replace(/\s+/g, ' ')`: collapse every whitespace run to a
single space. -/
def collapseWs (s : String) : String :=
  ⟨collapseAux s.data false⟩

/-! ## Min-max normalisation (`normalize` in `src/lib/search/hybrid.ts`) -/

/-- The running minimum of the `for` loop of `normalize`: it starts at
`Infinity`, so over a non-empty list it is the least element (the empty
case is unreachable behind the early `values.length === 0` return). -/
def listMin : List ℚ → ℚ
  | [] => 0
  | v :: vs => vs.foldl min v

/-- The running maximum of the `for` loop of `normalize` (starts at
`-Infinity`). -/
def listMax : List ℚ → ℚ
  | [] => 0
  | v :: vs => vs.foldl max v

/-- Models `normalize` from `src/lib/search/hybrid.ts`.  Over `ℚ` the
`!isFinite(min) || !isFinite(max)` guards cannot fire (they exist for
`±Infinity` inputs, which `ℚ` does not represent), leaving the
`max === min` degenerate test. -/
def normalize (values : List ℚ) : List ℚ :=
  if values.isEmpty then []
  else
    let mn := listMin values
    let mx := listMax values
    if mx = mn then values.map (fun _ => (1 : ℚ)/2)
    else values.map (fun v => (v - mn) / (mx - mn))


/-! ## Data model (`src/lib/search/hybrid.ts`) -/

/-- Models the `CandidateChunk` type: a retrieved chunk plus its pgvector
distance. -/
structure CandidateChunk where
  id : String
  content : String
  heading : Option String
  chunkIndex : Nat
  title : String
  slug : String
  source : String
  distance : ℚ
deriving DecidableEq

/-- Models the anonymous return type of `hybridRank`
(`CandidateChunk & {hybridScore, bm25Score, bm25Norm, vecSim}`);
the spread `...c` is the `toCandidateChunk` projection. -/
structure RankedChunk extends CandidateChunk where
  hybridScore : ℚ
  bm25Score : ℚ
  bm25Norm : ℚ
  vecSim : ℚ
deriving DecidableEq

/-! ## BM25 (`computeBm25Stats`, `bm25Scores`) -/

/-- Distinct elements in first-occurrence order: the iteration order of the
keys of the `qTermCounts` insertion-ordered `Map` (the stored counts are
never read by `bm25Scores`, only the keys). -/
def dedupFirst (ts : List String) : List String :=
  ts.foldl (fun acc t => if t ∈ acc then acc else acc ++ [t]) []

/-- Models the `Bm25Stats` record.  The `docFreq` `Map` is modelled as the
function it computes: the number of documents whose token list contains the
term (the `seen` set in the source counts each document at most once). -/
structure Bm25Stats where
  avgDocLen : ℚ
  docFreq : String → Nat
  numDocs : Nat

/-- Models `computeBm25Stats`.  `numDocs` is `docs.length || 1` and
`avgDocLen` is `totalLen / numDocs || 1` (`|| 1` catches the value `0`). -/
def computeBm25Stats (docs : List String) : Bm25Stats :=
  let docToks := docs.map tokenize
  let totalLen := (docToks.map List.length).sum
  let numDocs := if docs.length = 0 then 1 else docs.length
  { avgDocLen := if totalLen = 0 then 1 else (totalLen : ℚ) / (numDocs : ℚ)
    docFreq := fun t => ((docs.filter (fun d => decide (t ∈ tokenize d)))).length
    numDocs := numDocs }

/-- Models `bm25Scores` with its default parameters `k1 = 1.5`, `b = 0.75`
(no caller overrides them).  `Math.log` is the parameter `lg`.  The
`scores[i] += termScore` loop over documents is the `zipWith` over the
score list and the (tokens, length) pairs. -/
def bm25Scores (lg : ℚ → ℚ) (query : String) (docs : List String) : List ℚ :=
  let k1 : ℚ := 3/2
  let b : ℚ := 3/4
  let qTerms := dedupFirst (tokenize query)
  let stats := computeBm25Stats docs
  let docTokens := docs.map tokenize
  let docLens := docTokens.map (fun toks => if toks.length = 0 then 1 else toks.length)
  qTerms.foldl
    (fun scores term =>
      let df := stats.docFreq term
      if df = 0 then scores
      else
        let idf := lg (1 + ((stats.numDocs : ℚ) - (df : ℚ) + 1/2) / ((df : ℚ) + 1/2))
        List.zipWith
          (fun s (p : List String × Nat) =>
            let tf := (p.1.filter (fun tok => tok = term)).length
            if tf = 0 then s
            else
              let denom := (tf : ℚ) + k1 * (1 - b + (b * (p.2 : ℚ)) / stats.avgDocLen)
              s + idf * (((tf : ℚ) * (k1 + 1)) / denom))
          scores (docTokens.zip docLens))
    (List.replicate docs.length (0 : ℚ))

/-! ## Hybrid ranking (`hybridRank`) -/

/-- Models the per-candidate document text
`[c.title, c.heading ?? '', c.content].join(' ').trim()`. -/
def docText (c : CandidateChunk) : String :=
  jsTrim (c.title ++ " " ++ c.heading.getD "" ++ " " ++ c.content)

/-- Models `chunks.map((c, i) => ({...c, hybridScore: finalScores[i], ...}))`:
zip the chunk list with the four parallel score lists (all have the length
of `chunks`). -/
def attachScores :
    List CandidateChunk → List ℚ → List ℚ → List ℚ → List ℚ → List RankedChunk
  | c :: cs, f :: fs, r :: rs, n :: ns, v :: vs =>
    { toCandidateChunk := c, hybridScore := f, bm25Score := r, bm25Norm := n, vecSim := v }
      :: attachScores cs fs rs ns vs
  | _, _, _, _, _ => []

/-- The comparison relation of `withScores.sort((a, b) => b.hybridScore -
a.hybridScore)`: `a` may be placed before `b` iff the comparator is `≤ 0`,
i.e. `b.hybridScore ≤ a.hybridScore` (descending). -/
def rankLE (a b : RankedChunk) : Prop :=
  b.hybridScore ≤ a.hybridScore

instance : DecidableRel rankLE :=
  fun a b => inferInstanceAs (Decidable (b.hybridScore ≤ a.hybridScore))

instance : IsTotal RankedChunk rankLE :=
  ⟨fun a b => le_total b.hybridScore a.hybridScore⟩

instance : IsTrans RankedChunk rankLE :=
  ⟨fun _ _ _ h1 h2 => le_trans h2 h1⟩

/-- The candidate list annotated with scores, before sorting: the local
`withScores` of `hybridRank`.  `finalScores` is
`bm25Norm.map((b, i) => alpha * b + (1 - alpha) * vecSim[i])`, a `zipWith`
over the two equal-length lists. -/
def hybridWithScores (lg : ℚ → ℚ) (query : String) (chunks : List CandidateChunk)
    (alpha : ℚ) : List RankedChunk :=
  let docs := chunks.map docText
  let bm25 := bm25Scores lg query docs
  let bm25Norm := normalize bm25
  let distances := chunks.map (fun c => c.distance)
  let distNorm := normalize distances
  let vecSim := distNorm.map (fun d => 1 - d)
  let finalScores := List.zipWith (fun bn v => alpha * bn + (1 - alpha) * v) bm25Norm vecSim
  attachScores chunks finalScores bm25 bm25Norm vecSim

/-- The default of the `alpha = 0.5` parameter of `hybridRank`. -/
def hybridRankDefaultAlpha : ℚ := 1/2

/-- Models `hybridRank`.  `Array.prototype.sort` is stable (ES2019) and the
comparator `(a, b) => b.hybridScore - a.hybridScore` is consistent, so the
sort is modelled by the stable `List.insertionSort` on `rankLE`. -/
def hybridRank (lg : ℚ → ℚ) (query : String) (chunks : List CandidateChunk)
    (alpha : ℚ) : List RankedChunk :=
  if chunks.isEmpty then []
  else List.insertionSort rankLE (hybridWithScores lg query chunks alpha)

/-- A call of `hybridRank(query, chunks)` that does not supply `alpha` and
therefore uses the declared default. -/
def hybridRankDefault (lg : ℚ → ℚ) (query : String) (chunks : List CandidateChunk) :
    List RankedChunk :=
  hybridRank lg query chunks hybridRankDefaultAlpha

/-! ## LLM re-ranker (`rerankWithLlm` in `src/app/api/chat/route.ts`) -/

/-- Models the return element type of `rerankWithLlm`
(`RerankableChunk & { rerankScore: number }`); its callers pass the full
`hybridRank` output, so the base type here is `RankedChunk`. -/
structure RerankedChunk extends RankedChunk where
  rerankScore : ℚ
deriving DecidableEq

/-- Models one element of the JSON array parsed from the re-rank model
reply: `id` is `none` when `typeof item?.id !== 'string'`, and `score` is
`none` when `typeof item?.score !== 'number'`. -/
structure RawEntry where
  id : Option String
  score : Option ℚ
deriving DecidableEq

/-- Models `Map.prototype.set` on a string-keyed map kept as an
insertion-ordered association list: overwrite an existing key, else
append. -/
def jsMapSet (m : List (String × ℚ)) (k : String) (v : ℚ) : List (String × ℚ) :=
  if m.any (fun p => p.1 = k) then m.map (fun p => if p.1 = k then (k, v) else p)
  else m ++ [(k, v)]

/-- Models `Map.prototype.get` (`none` is JavaScript `undefined`). -/
def jsMapGet (m : List (String × ℚ)) (k : String) : Option ℚ :=
  (m.find? (fun p => p.1 = k)).map (fun p => p.2)

/-- The pass-through fallback `candidates.map((c) => ({ ...c, rerankScore:
c.hybridScore }))` used on a missing LLM client, an unparseable reply and
an empty score map. -/
def rerankPassthrough (candidates : List RankedChunk) : List RerankedChunk :=
  candidates.map (fun c => { toRankedChunk := c, rerankScore := c.hybridScore })

/-- The `scoreById` map of `rerankWithLlm`: fold the parsed array into an
insertion-ordered map, keeping only items whose `id` is a string and whose
`score` is a number. -/
def parseScoreById (parsed : List RawEntry) : List (String × ℚ) :=
  parsed.foldl
    (fun m item =>
      match item.id, item.score with
      | some i, some s => jsMapSet m i s
      | _, _ => m)
    []

/-- Models `rerankWithLlm`.  The network-and-parse step
(`generateText`, the `/\[[\s\S]*\]/` match and `JSON.parse`) is the oracle
`reply`: `none` models the whole `catch` branch (the call or the parse
threw, or the parsed value was not iterable), `some entries` models a
successfully parsed array whose items carry the runtime-checked fields.
Every branch returns normally; no failure escapes this function. -/
def rerankWithLlm (openaiConfigured : Bool) (reply : Option (List RawEntry))
    (candidates : List RankedChunk) : List RerankedChunk :=
  if !openaiConfigured then rerankPassthrough candidates
  else if candidates.isEmpty then []
  else
    match reply with
    | none => rerankPassthrough candidates
    | some parsed =>
      let scoreById := parseScoreById parsed
      if scoreById.length = 0 then rerankPassthrough candidates
      else candidates.map
        (fun c => { toRankedChunk := c,
                    rerankScore := (jsMapGet scoreById c.id).getD c.hybridScore })

/-! ## Embedding provider (`generateLocalEmbedding`, `embedWithVoyage`) -/

/-- Models `generateLocalEmbedding`: the SHA-256 digest is the oracle
`hash` (a byte list); entry `i` is `(hash[i % hash.length] / 255) * 2 - 1`.
The dimensionality `EMBEDDING_DIMENSIONS` is the parameter `D`. -/
def generateLocalEmbedding (D : Nat) (hash : String → List Nat) (text : String) :
    List ℚ :=
  (List.range D).map
    (fun i => (((hash text).getD (i % (hash text).length) 0 : ℚ) / 255) * 2 - 1)

/-- Models the outcome of the Voyage embeddings HTTP call: a non-2xx
status, or a 2xx body whose `data` field is `none` when missing/not an
array, with each item's `embedding` `none` when missing/not an array. -/
inductive VoyageResult where
  | httpError (status : Nat) (body : String)
  | ok (data : Option (List (Option (List ℚ))))
deriving DecidableEq

/-- The per-vector dimensionality fix of `embedWithVoyage`: keep an exact
match, truncate (`slice(0, D)`) when longer, zero-pad when shorter. -/
def fixDims (D : Nat) (embedding : List ℚ) : List ℚ :=
  if embedding.length = D then embedding
  else if embedding.length > D then embedding.take D
  else embedding ++ List.replicate (D - embedding.length) (0 : ℚ)

/-- The `rawEmbeddings.map` of `embedWithVoyage`, whose callback throws on
a missing/invalid embedding: the first invalid item aborts the call. -/
def fixAll (D : Nat) : List (Option (List ℚ)) → Except String (List (List ℚ))
  | [] => .ok []
  | none :: _ => .error "Voyage embedding at index is missing or invalid"
  | some e :: rest =>
    match fixAll D rest with
    | .error m => .error m
    | .ok tail => .ok (fixDims D e :: tail)

/-- Models `embedWithVoyage`: HTTP 429/402 falls back to the deterministic
local embedding, any other non-2xx status throws, and a 2xx response has
every vector adjusted to exactly `D` entries. -/
def embedWithVoyage (D : Nat) (hash : String → List Nat) (texts : List String)
    (res : VoyageResult) : Except String (List (List ℚ)) :=
  match res with
  | .httpError status _ =>
    if status = 429 ∨ status = 402 then .ok (texts.map (generateLocalEmbedding D hash))
    else .error "Voyage embeddings request failed"
  | .ok none => .error "Voyage embeddings response missing data array"
  | .ok (some rawEmbeddings) => fixAll D rawEmbeddings

/-! ## Citation builder (`buildCitations`) -/

/-- Models the `TrustLevel` union type of `src/types/citation.ts`. -/
inductive TrustLevel where
  | direct
  | inferred
  | related
deriving DecidableEq

/-- Models the `Citation` interface of `src/types/citation.ts`
(`lastUpdated` is the `new Date()` timestamp, modelled as a number). -/
structure Citation where
  id : String
  mdnUrl : String
  articleTitle : String
  sectionAnchor : Option String
  excerpt : String
  lastUpdated : Nat
  trustLevel : TrustLevel
  relevanceScore : ℚ
deriving DecidableEq

/-- Models the parameter type of `buildCitations`
(`CandidateChunk & { hybridScore: number; rerankScore?: number }`). -/
structure CitableChunk extends CandidateChunk where
  hybridScore : ℚ
  rerankScore : Option ℚ
deriving DecidableEq

/-- Models `buildCitations` (`now` is the `new Date()` taken at entry; the
first parameter `ranked` is declared but never read by the body). -/
def buildCitations (now : Nat) (ranked : Option CitableChunk)
    (allRanked : List CitableChunk) : List Citation :=
  allRanked.map
    (fun row =>
      { id := row.id
        mdnUrl := "https://developer.mozilla.org/en-US/docs/" ++ row.slug
        articleTitle := row.title
        sectionAnchor := none
        excerpt := jsSlice (collapseWs row.content) 280
        lastUpdated := now
        trustLevel := .direct
        relevanceScore := row.rerankScore.getD row.hybridScore })

/-! ## Sessions (`getOrCreateSessionId`) -/

/-- A row of the `chat_sessions` table (the timestamp columns play no role
in the properties below and are not modelled). -/
structure SessionRow where
  id : String
  title : String
deriving DecidableEq

/-- Models the `ChatRequestBody` type.  A `question` field that is present
but not a string behaves like an absent one (both reach the `typeof`
check), so both are `none`. -/
structure ChatRequestBody where
  question : Option String
  topicScope : Option String
  sessionId : Option String
  newSession : Bool
deriving DecidableEq

/-- Models `getOrCreateSessionId`.  The `db.insert(...).returning()` id of
a newly created row is the oracle `freshId`; the function returns the
chosen session id together with the table after any insert.  JavaScript
`!body.sessionId` is true for `undefined` and for the empty string, hence
the `getD "" = ""` test.  The title `question.slice(0, 80) || 'New chat
session'` is computed identically in both insert branches. -/
def getOrCreateSessionId (sessions : List SessionRow) (freshId : String)
    (body : ChatRequestBody) (question : String) : String × List SessionRow :=
  let title := if jsSlice question 80 = "" then "New chat session" else jsSlice question 80
  if body.newSession || (body.sessionId.getD "") = "" then
    (freshId, sessions ++ [{ id := freshId, title := title }])
  else
    let sid := body.sessionId.getD ""
    if sessions.any (fun s => s.id = sid) then (sid, sessions)
    else (freshId, sessions ++ [{ id := freshId, title := title }])

/-! ## Pipeline orchestration (`POST` in `src/app/api/chat/route.ts`) -/

/-- A row returned by `retrieveRelevantChunks` (the pgvector query);
`distance` is `Option` because the route guards it with `?? 0`. -/
structure RetrievedChunkRow where
  id : String
  content : String
  heading : Option String
  chunk_index : Nat
  title : String
  slug : String
  source : String
  distance : Option ℚ
deriving DecidableEq

/-- The comparison relation of the final
`.sort((a, b) => (b.rerankScore ?? b.hybridScore) - (a.rerankScore ??
a.hybridScore))`; `rerankScore` is always present on `RerankedChunk`, so
the `??` fallbacks resolve to `rerankScore`. -/
def rerankLE (a b : RerankedChunk) : Prop :=
  b.rerankScore ≤ a.rerankScore

instance : DecidableRel rerankLE :=
  fun a b => inferInstanceAs (Decidable (b.rerankScore ≤ a.rerankScore))

instance : IsTotal RerankedChunk rerankLE :=
  ⟨fun a b => le_total b.rerankScore a.rerankScore⟩

instance : IsTrans RerankedChunk rerankLE :=
  ⟨fun _ _ _ h1 h2 => le_trans h2 h1⟩

/-- Models `askLlmWithContext`: with no LLM client configured it returns
the top row's content (or a stock string when that is empty/absent) and
`usedLlm = false`; otherwise the `generateText` oracle either succeeds or
throws. -/
def askLlmWithContext (openaiConfigured : Bool) (llmAnswer : Except String String)
    (rows : List RetrievedChunkRow) : Except String (String × Bool) :=
  if !openaiConfigured then
    let c := ((rows.head?).map (fun r => r.content)).getD ""
    .ok (if c = "" then "No relevant chunks found to answer this question." else c, false)
  else
    match llmAnswer with
    | .error e => .error e
    | .ok t => .ok (t, true)

/-- The pipeline stages `runPOST` may invoke, recorded in invocation
order: the session lookup/insert, the embeddings call, the pgvector
retrieval, the re-rank step, the citation build, the answer synthesis and
the persistence writes. -/
inductive Call where
  | sessionCall
  | embedCall
  | retrieveCall
  | rerankCall
  | citationsCall
  | synthesizeCall
  | persistCall
deriving DecidableEq

/-- The observable response of `POST`: an error JSON with its HTTP status,
or the success payload (the fields of the success JSON that the claims
mention: answer text, citations, session id, model label, confidence). -/
inductive ChatResponse where
  | errorJson (status : Nat) (error : String)
  | success (answer : String) (citations : List Citation) (sessionId : String)
      (model : String) (confidence : ℚ)
deriving DecidableEq

/-- The per-request oracle data for every external effect of the route:
`Math.log`, the configuration flags, the Voyage response, the pgvector
rows, the parsed re-rank reply, the synthesis call outcome, the session
table, the fresh insert id and the clock. -/
structure Env where
  lg : ℚ → ℚ
  openaiConfigured : Bool
  openaiModelId : String
  D : Nat
  hash : String → List Nat
  voyage : VoyageResult
  retrieve : List ℚ → List RetrievedChunkRow
  rerankReply : Option (List RawEntry)
  llmAnswer : Except String String
  sessions : List SessionRow
  freshId : String
  now : Nat

/-- Models `MAX_QUESTION_LENGTH`. -/
def MAX_QUESTION_LENGTH : Nat := 2000

/-- The `alpha` the route passes to `hybridRank` ("slightly favor BM25"). -/
def pipelineAlpha : ℚ := 3/5

/-- The generic 500 message of the route's `catch` block. -/
def upstreamErrorMessage : String :=
  "Unexpected error while processing your question. Please try again or refine your query."

/-- The 404 message for an empty retrieval result. -/
def noCandidatesMessage : String :=
  "No relevant MDN content found to answer this question."

/-- The row-to-candidate conversion of step 3 of `POST`. -/
def rowToCandidate (row : RetrievedChunkRow) : CandidateChunk :=
  { id := row.id, content := row.content, heading := row.heading,
    chunkIndex := row.chunk_index, title := row.title, slug := row.slug,
    source := row.source, distance := row.distance.getD 0 }

/-- The (structural) view of a re-ranked chunk taken by `buildCitations`;
in the source this is TypeScript subtyping, with `rerankScore` present. -/
def RerankedChunk.toCitable (r : RerankedChunk) : CitableChunk :=
  { toCandidateChunk := r.toCandidateChunk, hybridScore := r.hybridScore,
    rerankScore := some r.rerankScore }

/-- The row view passed back to `askLlmWithContext` (step 5 of `POST`). -/
def RerankedChunk.toRow (r : RerankedChunk) : RetrievedChunkRow :=
  { id := r.id, content := r.content, heading := r.heading,
    chunk_index := r.chunkIndex, title := r.title, slug := r.slug,
    source := r.source, distance := some r.distance }

/-- The question extraction of `POST`:
`typeof rawQuestion === 'string' ? rawQuestion.trim() : ''`. -/
def extractQuestion (body : ChatRequestBody) : String :=
  match body.question with
  | some s => jsTrim s
  | none => ""

/-- Models the `POST` handler.  The JSON parse of the request body is the
oracle `rawBody` (`none` models a body `req.json()` rejects).  The second
component is the list of pipeline stages invoked, in order; validation
rejections return before the connection, session, or any network step.
Database writes (`persistMessagesAndCitations`) are modelled as succeeding
and are recorded as `persistCall`. -/
def runPOST (env : Env) (rawBody : Option ChatRequestBody) : ChatResponse × List Call :=
  match rawBody with
  | none => (.errorJson 400 "Invalid JSON body", [])
  | some body =>
    let question := extractQuestion body
    if question = "" then (.errorJson 400 "Question is required", [])
    else if jsLength question > MAX_QUESTION_LENGTH then
      (.errorJson 400 "Question is too long", [])
    else
      let sessionId := (getOrCreateSessionId env.sessions env.freshId body question).1
      match embedWithVoyage env.D env.hash [question] env.voyage with
      | .error _ => (.errorJson 500 upstreamErrorMessage, [.sessionCall, .embedCall])
      | .ok [] => (.errorJson 500 upstreamErrorMessage, [.sessionCall, .embedCall])
      | .ok (questionEmbedding :: _) =>
        let rows := env.retrieve questionEmbedding
        if rows.isEmpty then
          (.errorJson 404 noCandidatesMessage, [.sessionCall, .embedCall, .retrieveCall])
        else
          let candidates := rows.map rowToCandidate
          let ranked := hybridRank env.lg question candidates pipelineAlpha
          let topRankedHybrid := ranked.take 5
          let reranked := rerankWithLlm env.openaiConfigured env.rerankReply topRankedHybrid
          let topRanked := List.insertionSort rerankLE reranked
          let citations := buildCitations env.now
            ((topRanked.head?).map RerankedChunk.toCitable)
            (topRanked.map RerankedChunk.toCitable)
          match askLlmWithContext env.openaiConfigured env.llmAnswer
              (topRanked.map RerankedChunk.toRow) with
          | .error _ =>
            (.errorJson 500 upstreamErrorMessage,
             [.sessionCall, .embedCall, .retrieveCall, .rerankCall, .citationsCall,
              .synthesizeCall])
          | .ok (answer, usedLlm) =>
            (.success answer citations sessionId
              (if usedLlm then env.openaiModelId else "mdn-rag-retrieval-only")
              (if citations.length > 0 then 8/10 else 1/2),
             [.sessionCall, .embedCall, .retrieveCall, .rerankCall, .citationsCall,
              .synthesizeCall, .persistCall])

/-! ## Concrete data for instantiations -/

/-- A demo candidate whose document text tokenises to `["x"]`. -/
def demoChunkA : CandidateChunk :=
  { id := "a1", content := "", heading := none, chunkIndex := 0,
    title := "x", slug := "Web/A", source := "a/index.md", distance := 1 }

/-- A demo candidate whose document text tokenises to `["y"]`. -/
def demoChunkB : CandidateChunk :=
  { id := "b1", content := "", heading := none, chunkIndex := 0,
    title := "y", slug := "Web/B", source := "b/index.md", distance := 0 }

/-- A demo ranked candidate. -/
def demoRankedA : RankedChunk :=
  { toCandidateChunk := demoChunkA, hybridScore := 1, bm25Score := 0,
    bm25Norm := 0, vecSim := 1 }

/-- A demo oracle environment. -/
def demoEnv : Env :=
  { lg := fun x => x, openaiConfigured := false, openaiModelId := "gpt-4o-mini",
    D := 2, hash := fun _ => [7], voyage := .ok (some [some [1, 0]]),
    retrieve := fun _ => [], rerankReply := none, llmAnswer := .ok "answer",
    sessions := [], freshId := "s1", now := 0 }

/-- A 2001-character question. -/
def demoLongQuestion : String := ⟨List.replicate 2001 'a'⟩

/-! ## Lemmas about `normalize` -/

theorem foldl_min_le_init (vs : List ℚ) (a : ℚ) : vs.foldl min a ≤ a := by
  induction vs generalizing a with
  | nil => exact le_refl a
  | cons v vs ih => exact le_trans (ih (min a v)) (min_le_left a v)

theorem foldl_min_le_mem {vs : List ℚ} {v : ℚ} (h : v ∈ vs) (a : ℚ) :
    vs.foldl min a ≤ v := by
  induction vs generalizing a with
  | nil => cases h
  | cons w ws ih =>
    rcases List.mem_cons.mp h with rfl | hw
    · exact le_trans (foldl_min_le_init ws (min a v)) (min_le_right a v)
    · exact ih hw (min a w)

theorem init_le_foldl_max (vs : List ℚ) (a : ℚ) : a ≤ vs.foldl max a := by
  induction vs generalizing a with
  | nil => exact le_refl a
  | cons v vs ih => exact le_trans (le_max_left a v) (ih (max a v))

theorem mem_le_foldl_max {vs : List ℚ} {v : ℚ} (h : v ∈ vs) (a : ℚ) :
    v ≤ vs.foldl max a := by
  induction vs generalizing a with
  | nil => cases h
  | cons w ws ih =>
    rcases List.mem_cons.mp h with rfl | hw
    · exact le_trans (le_max_right a v) (init_le_foldl_max ws (max a v))
    · exact ih hw (max a w)

theorem listMin_le_mem {l : List ℚ} {v : ℚ} (h : v ∈ l) : listMin l ≤ v := by
  cases l with
  | nil => cases h
  | cons w ws =>
    rcases List.mem_cons.mp h with rfl | hw
    · exact foldl_min_le_init ws v
    · exact foldl_min_le_mem hw w

theorem mem_le_listMax {l : List ℚ} {v : ℚ} (h : v ∈ l) : v ≤ listMax l := by
  cases l with
  | nil => cases h
  | cons w ws =>
    rcases List.mem_cons.mp h with rfl | hw
    · exact init_le_foldl_max ws v
    · exact mem_le_foldl_max hw w

theorem listMin_le_listMax {l : List ℚ} (h : l ≠ []) : listMin l ≤ listMax l := by
  cases l with
  | nil => exact absurd rfl h
  | cons v vs =>
    exact le_trans (listMin_le_mem (List.mem_cons_self v vs))
      (mem_le_listMax (List.mem_cons_self v vs))

theorem normalize_cons_eq (a : ℚ) (l : List ℚ) :
    normalize (a :: l) =
      if listMax (a :: l) = listMin (a :: l) then (a :: l).map (fun _ => (1 : ℚ)/2)
      else (a :: l).map
        (fun v => (v - listMin (a :: l)) / (listMax (a :: l) - listMin (a :: l))) := rfl

theorem foldl_min_const {vs : List ℚ} {c : ℚ} (h : ∀ x ∈ vs, x = c) :
    vs.foldl min c = c := by
  induction vs with
  | nil => rfl
  | cons v vs ih =>
    have hv : v = c := h v (List.mem_cons_self v vs)
    rw [List.foldl_cons, hv, min_self]
    exact ih (fun x hx => h x (List.mem_cons_of_mem v hx))

theorem foldl_max_const {vs : List ℚ} {c : ℚ} (h : ∀ x ∈ vs, x = c) :
    vs.foldl max c = c := by
  induction vs with
  | nil => rfl
  | cons v vs ih =>
    have hv : v = c := h v (List.mem_cons_self v vs)
    rw [List.foldl_cons, hv, max_self]
    exact ih (fun x hx => h x (List.mem_cons_of_mem v hx))

theorem length_normalize (values : List ℚ) : (normalize values).length = values.length := by
  cases values with
  | nil => rfl
  | cons a l =>
    rw [normalize_cons_eq]
    split <;> simp
/-! ## Structural lemmas about the ranking pipeline -/

theorem foldl_length_invariant {α β : Type} (f : List α → β → List α) (n : Nat)
    (hf : ∀ s t, s.length = n → (f s t).length = n) :
    ∀ (ts : List β) (s : List α), s.length = n → (ts.foldl f s).length = n := by
  intro ts
  induction ts with
  | nil => intro s hs; exact hs
  | cons t ts ih => intro s hs; exact ih _ (hf s t hs)

theorem length_bm25Scores (lg : ℚ → ℚ) (query : String) (docs : List String) :
    (bm25Scores lg query docs).length = docs.length := by
  unfold bm25Scores
  dsimp only
  refine foldl_length_invariant _ docs.length ?_ _ _ (by simp)
  intro s t hs
  dsimp only
  split
  · exact hs
  · simp [hs]

theorem attachScores_nil (fs rs ns vs : List ℚ) : attachScores [] fs rs ns vs = [] := rfl

theorem attachScores_map_toCandidate :
    ∀ (cs : List CandidateChunk) (fs rs ns vs : List ℚ),
      cs.length ≤ fs.length → cs.length ≤ rs.length → cs.length ≤ ns.length →
      cs.length ≤ vs.length →
      (attachScores cs fs rs ns vs).map RankedChunk.toCandidateChunk = cs := by
  intro cs
  induction cs with
  | nil => intro fs rs ns vs _ _ _ _; rw [attachScores_nil]; rfl
  | cons c cs ih =>
    intro fs rs ns vs h1 h2 h3 h4
    cases fs with
    | nil => simp at h1
    | cons f fs =>
      cases rs with
      | nil => simp at h2
      | cons r rs =>
        cases ns with
        | nil => simp at h3
        | cons n ns =>
          cases vs with
          | nil => simp at h4
          | cons v vs =>
            have h1' : cs.length ≤ fs.length := by simpa using h1
            have h2' : cs.length ≤ rs.length := by simpa using h2
            have h3' : cs.length ≤ ns.length := by simpa using h3
            have h4' : cs.length ≤ vs.length := by simpa using h4
            show RankedChunk.toCandidateChunk
                { toCandidateChunk := c, hybridScore := f, bm25Score := r,
                  bm25Norm := n, vecSim := v }
              :: (attachScores cs fs rs ns vs).map RankedChunk.toCandidateChunk = c :: cs
            rw [ih fs rs ns vs h1' h2' h3' h4']

theorem mem_attachScores_hybridScore :
    ∀ (cs : List CandidateChunk) (fs rs ns vs : List ℚ) (x : RankedChunk),
      x ∈ attachScores cs fs rs ns vs → x.hybridScore ∈ fs := by
  intro cs
  induction cs with
  | nil =>
    intro fs rs ns vs x hx
    rw [attachScores_nil] at hx
    exact absurd hx (List.not_mem_nil x)
  | cons c cs ih =>
    intro fs rs ns vs x hx
    cases fs with
    | nil =>
      have : attachScores (c :: cs) [] rs ns vs = [] := rfl
      rw [this] at hx
      exact absurd hx (List.not_mem_nil x)
    | cons f fs =>
      cases rs with
      | nil =>
        have : attachScores (c :: cs) (f :: fs) [] ns vs = [] := rfl
        rw [this] at hx
        exact absurd hx (List.not_mem_nil x)
      | cons r rs =>
        cases ns with
        | nil =>
          have : attachScores (c :: cs) (f :: fs) (r :: rs) [] vs = [] := rfl
          rw [this] at hx
          exact absurd hx (List.not_mem_nil x)
        | cons n ns =>
          cases vs with
          | nil =>
            have : attachScores (c :: cs) (f :: fs) (r :: rs) (n :: ns) [] = [] := rfl
            rw [this] at hx
            exact absurd hx (List.not_mem_nil x)
          | cons v vs =>
            rcases List.mem_cons.mp hx with rfl | hx'
            · exact List.mem_cons_self f fs
            · exact List.mem_cons_of_mem f (ih fs rs ns vs x hx')

theorem hybridWithScores_map_toCandidate (lg : ℚ → ℚ) (query : String)
    (chunks : List CandidateChunk) (alpha : ℚ) :
    (hybridWithScores lg query chunks alpha).map RankedChunk.toCandidateChunk = chunks := by
  unfold hybridWithScores
  dsimp only
  apply attachScores_map_toCandidate <;>
    simp [List.length_zipWith, length_normalize, length_bm25Scores, List.length_map]

theorem hybridRank_eq_insertionSort (lg : ℚ → ℚ) (query : String)
    {chunks : List CandidateChunk} (alpha : ℚ) (h : chunks ≠ []) :
    hybridRank lg query chunks alpha
      = List.insertionSort rankLE (hybridWithScores lg query chunks alpha) := by
  have hne : chunks.isEmpty = false := by
    cases chunks with
    | nil => exact absurd rfl h
    | cons a l => rfl
  rw [hybridRank, if_neg (by simp [hne])]

/-! ## Claim C2 -/

/-- C2: `normalize` maps every input into `[0,1]`; and on every constant
(all-equal) non-empty input it returns exactly `0.5` for every element —
in particular never `0`. -/
theorem C2_normalize_unit_range_and_degenerate_half (values : List ℚ) :
    (∀ x ∈ normalize values, 0 ≤ x ∧ x ≤ 1) ∧
    (values ≠ [] → (∀ u ∈ values, ∀ w ∈ values, u = w) →
      normalize values = values.map (fun _ => (1 : ℚ)/2) ∧
      ∀ x ∈ normalize values, x ≠ 0) := by
  constructor
  · intro x hx
    cases values with
    | nil => simp [normalize] at hx
    | cons a l =>
      rw [normalize_cons_eq] at hx
      by_cases hc : listMax (a :: l) = listMin (a :: l)
      · rw [if_pos hc] at hx
        obtain ⟨v, hv, rfl⟩ := List.mem_map.mp hx
        norm_num
      · rw [if_neg hc] at hx
        obtain ⟨v, hv, rfl⟩ := List.mem_map.mp hx
        have h1 : listMin (a :: l) ≤ v := listMin_le_mem hv
        have h2 : v ≤ listMax (a :: l) := mem_le_listMax hv
        have h4 : 0 < listMax (a :: l) - listMin (a :: l) := by
          rcases lt_or_eq_of_le (le_trans h1 h2) with h | h
          · linarith
          · exact absurd h.symm hc
        constructor
        · exact div_nonneg (by linarith) (le_of_lt h4)
        · rw [div_le_one h4]; linarith
  · intro hne hconst
    cases values with
    | nil => exact absurd rfl hne
    | cons a l =>
      have hall : ∀ x ∈ l, x = a := fun x hx =>
        hconst x (List.mem_cons_of_mem a hx) a (List.mem_cons_self a l)
      have hmin : listMin (a :: l) = a := foldl_min_const hall
      have hmax : listMax (a :: l) = a := foldl_max_const hall
      have hhalf : normalize (a :: l) = (a :: l).map (fun _ => (1 : ℚ)/2) := by
        rw [normalize_cons_eq, if_pos (by rw [hmin, hmax])]
      refine ⟨hhalf, ?_⟩
      intro x hx
      rw [hhalf] at hx
      obtain ⟨v, hv, rfl⟩ := List.mem_map.mp hx
      norm_num

/-- Witness for C2 at the constant list `[3, 3]`. -/
theorem C2_witness : normalize [(3 : ℚ), 3] = [1/2, 1/2] ∧ (0 : ℚ) ∉ normalize [(3 : ℚ), 3] := by
  have hconst : ∀ u ∈ [(3 : ℚ), 3], ∀ w ∈ [(3 : ℚ), 3], u = w := by
    intro u hu w hw
    simp only [List.mem_cons, List.not_mem_nil, or_false] at hu hw
    rcases hu with rfl | rfl <;> rcases hw with rfl | rfl <;> rfl
  have h := (C2_normalize_unit_range_and_degenerate_half [(3 : ℚ), 3]).2 (by simp) hconst
  refine ⟨h.1.trans rfl, ?_⟩
  intro h0
  exact h.2 0 h0 rfl

/-! ## Claim C1 -/

/-- C1: for every non-empty candidate list, `hybridRank` returns a
permutation of its input (forgetting the attached scores), sorted by
non-increasing `hybridScore`; and the sort is stable: for every score
value `s`, the candidates whose `hybridScore` is `s` appear in exactly the
order they have in the unsorted score-annotated input `hybridWithScores`,
i.e. in their original retrieval order. -/
theorem C1_hybridRank_sorted_stable_permutation (lg : ℚ → ℚ) (query : String)
    (chunks : List CandidateChunk) (alpha : ℚ) (h : chunks ≠ []) :
    ((hybridRank lg query chunks alpha).map RankedChunk.toCandidateChunk).Perm chunks ∧
    (hybridRank lg query chunks alpha).Pairwise
      (fun a b => b.hybridScore ≤ a.hybridScore) ∧
    ∀ s : ℚ,
      (hybridRank lg query chunks alpha).filter (fun x => decide (x.hybridScore = s)) =
        (hybridWithScores lg query chunks alpha).filter
          (fun x => decide (x.hybridScore = s)) := by
  rw [hybridRank_eq_insertionSort lg query alpha h]
  refine ⟨?_, ?_, ?_⟩
  · have hperm :=
      (List.perm_insertionSort rankLE (hybridWithScores lg query chunks alpha)).map
        RankedChunk.toCandidateChunk
    rwa [hybridWithScores_map_toCandidate] at hperm
  · exact List.sorted_insertionSort rankLE _
  · intro s
    have hpair :
        ((hybridWithScores lg query chunks alpha).filter
            (fun x => decide (x.hybridScore = s))).Pairwise rankLE := by
      apply List.pairwise_of_forall_mem_list
      intro a ha b hb
      have hpa : a.hybridScore = s := by simpa using (List.mem_filter.mp ha).2
      have hpb : b.hybridScore = s := by simpa using (List.mem_filter.mp hb).2
      show b.hybridScore ≤ a.hybridScore
      rw [hpa, hpb]
    have hsub :
        (hybridWithScores lg query chunks alpha).filter
            (fun x => decide (x.hybridScore = s)) <+
          List.insertionSort rankLE (hybridWithScores lg query chunks alpha) :=
      List.sublist_insertionSort hpair (List.filter_sublist _)
    have heq :
        ((hybridWithScores lg query chunks alpha).filter
            (fun x => decide (x.hybridScore = s))).filter
            (fun x => decide (x.hybridScore = s)) =
          (hybridWithScores lg query chunks alpha).filter
            (fun x => decide (x.hybridScore = s)) :=
      List.filter_eq_self.mpr (fun a ha => (List.mem_filter.mp ha).2)
    have hsub2 :
        (hybridWithScores lg query chunks alpha).filter
            (fun x => decide (x.hybridScore = s)) <+
          (List.insertionSort rankLE (hybridWithScores lg query chunks alpha)).filter
            (fun x => decide (x.hybridScore = s)) := by
      have := hsub.filter (fun x => decide (x.hybridScore = s))
      rwa [heq] at this
    have hperm2 :
        (List.insertionSort rankLE (hybridWithScores lg query chunks alpha)).filter
            (fun x => decide (x.hybridScore = s)) ~
          (hybridWithScores lg query chunks alpha).filter
            (fun x => decide (x.hybridScore = s)) :=
      (List.perm_insertionSort rankLE (hybridWithScores lg query chunks alpha)).filter
        (fun x => decide (x.hybridScore = s))
    exact (hsub2.eq_of_length hperm2.length_eq.symm).symm

/-- Witness for C1 at a concrete two-candidate list. -/
theorem C1_witness :
    ((hybridRank (fun x => x) "q" [demoChunkA, demoChunkB] (1/2)).map
        RankedChunk.toCandidateChunk).Perm [demoChunkA, demoChunkB] :=
  (C1_hybridRank_sorted_stable_permutation (fun x => x) "q" [demoChunkA, demoChunkB]
      (1/2) (by simp)).1

/-! ## Claim C7 -/

theorem foldl_eq_init {α β : Type} (f : List α → β → List α) (ts : List β) (s : List α)
    (hf : ∀ t ∈ ts, ∀ s', f s' t = s') : ts.foldl f s = s := by
  induction ts generalizing s with
  | nil => rfl
  | cons t ts ih =>
    rw [List.foldl_cons, hf t (List.mem_cons_self t ts) s]
    exact ih _ (fun u hu s' => hf u (List.mem_cons_of_mem t hu) s')

theorem mem_dedupFirst_aux :
    ∀ (ts acc : List String) (t : String),
      t ∈ ts.foldl (fun acc t => if t ∈ acc then acc else acc ++ [t]) acc →
      t ∈ acc ∨ t ∈ ts := by
  intro ts
  induction ts with
  | nil => intro acc t ht; exact Or.inl ht
  | cons s ss ih =>
    intro acc t ht
    rw [List.foldl_cons] at ht
    rcases ih _ t ht with h | h
    · by_cases hs : s ∈ acc
      · rw [if_pos hs] at h
        exact Or.inl h
      · rw [if_neg hs] at h
        rcases List.mem_append.mp h with h' | h'
        · exact Or.inl h'
        · simp only [List.mem_singleton] at h'
          subst h'
          exact Or.inr (List.mem_cons_self t ss)
    · exact Or.inr (List.mem_cons_of_mem s h)

theorem mem_dedupFirst {ts : List String} {t : String} (h : t ∈ dedupFirst ts) :
    t ∈ ts := by
  rcases mem_dedupFirst_aux ts [] t h with h' | h'
  · exact absurd h' (List.not_mem_nil t)
  · exact h'

theorem bm25Scores_of_no_overlap (lg : ℚ → ℚ) (query : String) (docs : List String)
    (h : ∀ t ∈ tokenize query, ∀ d ∈ docs, t ∉ tokenize d) :
    bm25Scores lg query docs = List.replicate docs.length 0 := by
  unfold bm25Scores
  dsimp only
  apply foldl_eq_init
  intro term hterm s'
  have ht : term ∈ tokenize query := mem_dedupFirst hterm
  have hdf : (computeBm25Stats docs).docFreq term = 0 := by
    simp only [computeBm25Stats]
    rw [List.length_eq_zero, List.filter_eq_nil_iff]
    intro d hd
    simpa using h term ht d hd
  rw [if_pos hdf]

theorem normalize_replicate_zero {n : Nat} (hn : 0 < n) :
    normalize (List.replicate n (0 : ℚ)) = List.replicate n ((1 : ℚ)/2) := by
  cases n with
  | zero => exact absurd hn (lt_irrefl 0)
  | succ m =>
    rw [List.replicate_succ, normalize_cons_eq]
    have hall : ∀ x ∈ List.replicate m (0 : ℚ), x = 0 := fun x hx =>
      List.eq_of_mem_replicate hx
    have hmin : listMin (0 :: List.replicate m (0 : ℚ)) = 0 := foldl_min_const hall
    have hmax : listMax (0 :: List.replicate m (0 : ℚ)) = 0 := foldl_max_const hall
    rw [if_pos (by rw [hmin, hmax]), ← List.replicate_succ, List.map_replicate]

theorem mem_zipWith_alpha_one {c : ℚ} :
    ∀ (n : Nat) (ys : List ℚ) (x : ℚ),
      x ∈ List.zipWith (fun bn v => 1 * bn + (1 - 1) * v) (List.replicate n c) ys →
      x = c := by
  intro n
  induction n with
  | zero => intro ys x hx; simp at hx
  | succ m ih =>
    intro ys x hx
    cases ys with
    | nil => simp at hx
    | cons y ys =>
      rw [List.replicate_succ, List.zipWith_cons_cons] at hx
      rcases List.mem_cons.mp hx with rfl | hx'
      · ring
      · exact ih ys x hx'

/-- C7: with `alpha = 1` and no lexical overlap between the query tokens
and any candidate's document text, every raw BM25 score is `0`, so
normalisation yields the constant `0.5` and every candidate receives the
identical `hybridScore`. -/
theorem C7_no_overlap_alpha_one_constant (lg : ℚ → ℚ) (query : String)
    (chunks : List CandidateChunk) (h1 : chunks ≠ [])
    (h2 : ∀ t ∈ tokenize query, ∀ c ∈ chunks, t ∉ tokenize (docText c)) :
    ∀ a ∈ hybridRank lg query chunks 1, ∀ b ∈ hybridRank lg query chunks 1,
      a.hybridScore = b.hybridScore := by
  have hdocs : ∀ t ∈ tokenize query, ∀ d ∈ chunks.map docText, t ∉ tokenize d := by
    intro t ht d hd
    obtain ⟨c, hc, rfl⟩ := List.mem_map.mp hd
    exact h2 t ht c hc
  have hbm : bm25Scores lg query (chunks.map docText) = List.replicate chunks.length 0 := by
    rw [bm25Scores_of_no_overlap lg query _ hdocs, List.length_map]
  have hlen : 0 < chunks.length := by
    cases chunks with
    | nil => exact absurd rfl h1
    | cons c cs => exact Nat.succ_pos _
  have key : ∀ x ∈ hybridWithScores lg query chunks 1, x.hybridScore = 1/2 := by
    intro x hx
    unfold hybridWithScores at hx
    dsimp only at hx
    have hmem := mem_attachScores_hybridScore _ _ _ _ _ x hx
    rw [hbm, normalize_replicate_zero hlen] at hmem
    exact mem_zipWith_alpha_one chunks.length _ x.hybridScore hmem
  intro a ha b hb
  rw [hybridRank_eq_insertionSort lg query 1 h1] at ha hb
  have ha' : a ∈ hybridWithScores lg query chunks 1 :=
    (List.mem_insertionSort rankLE).mp ha
  have hb' : b ∈ hybridWithScores lg query chunks 1 :=
    (List.mem_insertionSort rankLE).mp hb
  rw [key a ha', key b hb']

/-- Witness for C7: the query `"zzz"` shares no token with the two demo
candidates, so their ranked `hybridScore`s are pairwise equal. -/
theorem C7_witness :
    (hybridRank (fun x => x) "zzz" [demoChunkA, demoChunkB] 1).Pairwise
      (fun a b => a.hybridScore = b.hybridScore) :=
  List.pairwise_of_forall_mem_list
    (fun a ha b hb =>
      C7_no_overlap_alpha_one_constant (fun x => x) "zzz" [demoChunkA, demoChunkB]
        (by simp) (by decide) a ha b hb)

/-! ## Claim C3 -/

theorem parseScoreById_nil_of_unusable {entries : List RawEntry}
    (h : ∀ e ∈ entries, e.id = none ∨ e.score = none) :
    parseScoreById entries = [] := by
  unfold parseScoreById
  apply foldl_eq_init
  intro e he m
  rcases h e he with h' | h'
  · show (match e.id, e.score with
      | some i, some s => jsMapSet m i s
      | _, _ => m) = m
    rw [h']
  · show (match e.id, e.score with
      | some i, some s => jsMapSet m i s
      | _, _ => m) = m
    cases hid : e.id with
    | none => rfl
    | some i => rw [h']

/-- C3: whenever the re-rank reply is unparseable (the `catch` branch) or
yields no usable `{id, score}` entries, `rerankWithLlm` maps every
candidate to itself with `rerankScore := hybridScore` — all other fields,
`hybridScore` included, are untouched.  The function is total (the source
catches every throw of the LLM call and of parsing), so the degradation
never fails the surrounding request. -/
theorem C3_rerank_unparseable_passthrough (openaiConfigured : Bool)
    (reply : Option (List RawEntry)) (candidates : List RankedChunk)
    (h : reply = none ∨ ∃ entries, reply = some entries ∧
      ∀ e ∈ entries, e.id = none ∨ e.score = none) :
    rerankWithLlm openaiConfigured reply candidates
      = candidates.map (fun c => { toRankedChunk := c, rerankScore := c.hybridScore }) := by
  cases openaiConfigured with
  | false => rfl
  | true =>
    rcases h with rfl | ⟨entries, rfl, hent⟩
    · cases candidates with
      | nil => rfl
      | cons c cs => rfl
    · cases candidates with
      | nil => rfl
      | cons c cs =>
        show (if (parseScoreById entries).length = 0 then rerankPassthrough (c :: cs)
            else (c :: cs).map
              (fun x => { toRankedChunk := x,
                          rerankScore :=
                            (jsMapGet (parseScoreById entries) x.id).getD x.hybridScore }))
          = rerankPassthrough (c :: cs)
        rw [parseScoreById_nil_of_unusable hent]
        rfl

/-- Witness for C3: a reply whose two entries each lack a usable field. -/
theorem C3_witness :
    rerankWithLlm true
        (some [{ id := none, score := some 5 }, { id := some "a1", score := none }])
        [demoRankedA]
      = [demoRankedA].map (fun c => { toRankedChunk := c, rerankScore := c.hybridScore }) :=
  C3_rerank_unparseable_passthrough true _ [demoRankedA]
    (Or.inr ⟨_, rfl, by decide⟩)

/-! ## Claim C6 -/

theorem fixDims_eq_take_pad (D : Nat) (e : List ℚ) :
    fixDims D e = e.take D ++ List.replicate (D - e.length) 0 := by
  unfold fixDims
  by_cases h1 : e.length = D
  · rw [if_pos h1, ← h1, List.take_length, Nat.sub_self, List.replicate_zero,
      List.append_nil]
  · rw [if_neg h1]
    by_cases h2 : e.length > D
    · rw [if_pos h2, Nat.sub_eq_zero_of_le (le_of_lt h2), List.replicate_zero,
        List.append_nil]
    · rw [if_neg h2, List.take_of_length_le (by omega)]

theorem length_fixDims (D : Nat) (e : List ℚ) : (fixDims D e).length = D := by
  rw [fixDims_eq_take_pad]
  simp only [List.length_append, List.length_take, List.length_replicate]
  omega

theorem length_generateLocalEmbedding (D : Nat) (hash : String → List Nat)
    (t : String) : (generateLocalEmbedding D hash t).length = D := by
  simp [generateLocalEmbedding]

theorem fixAll_ok_length (D : Nat) :
    ∀ (raw : List (Option (List ℚ))) (out : List (List ℚ)),
      fixAll D raw = .ok out → ∀ v ∈ out, v.length = D := by
  intro raw
  induction raw with
  | nil =>
    intro out h v hv
    have h' : (Except.ok ([] : List (List ℚ)) : Except String (List (List ℚ)))
        = Except.ok out := h
    injection h' with h''
    subst h''
    exact absurd hv (List.not_mem_nil v)
  | cons o rest ih =>
    intro out h v hv
    cases o with
    | none => exact Except.noConfusion h
    | some e =>
      have h' : (match fixAll D rest with
          | Except.error m => (Except.error m : Except String (List (List ℚ)))
          | Except.ok tail => Except.ok (fixDims D e :: tail)) = Except.ok out := h
      cases hr : fixAll D rest with
      | error m =>
        rw [hr] at h'
        exact Except.noConfusion h'
      | ok tail =>
        rw [hr] at h'
        injection h' with h''
        subst h''
        rcases List.mem_cons.mp hv with rfl | hv'
        · exact length_fixDims D e
        · exact ih tail hr v hv'

/-- C6: a successful `embedWithVoyage` (service success or 429/402 local
fallback) yields only vectors of exactly `D` entries; the per-vector fix
is precisely truncate-to-`D`-and-zero-pad; and the deterministic local
fallback always has exactly `D` entries. -/
theorem C6_embedding_dimensionality (D : Nat) (hash : String → List Nat)
    (texts : List String) (res : VoyageResult) (out : List (List ℚ))
    (h : embedWithVoyage D hash texts res = .ok out) :
    (∀ v ∈ out, v.length = D) ∧
    (∀ e : List ℚ, fixDims D e = e.take D ++ List.replicate (D - e.length) 0) ∧
    (∀ t : String, (generateLocalEmbedding D hash t).length = D) := by
  refine ⟨?_, fixDims_eq_take_pad D, length_generateLocalEmbedding D hash⟩
  intro v hv
  cases res with
  | httpError status body =>
    have h' : (if status = 429 ∨ status = 402
        then Except.ok (texts.map (generateLocalEmbedding D hash))
        else (Except.error "Voyage embeddings request failed"
          : Except String (List (List ℚ)))) = Except.ok out := h
    by_cases hs : status = 429 ∨ status = 402
    · rw [if_pos hs] at h'
      injection h' with h''
      subst h''
      obtain ⟨t, ht, rfl⟩ := List.mem_map.mp hv
      exact length_generateLocalEmbedding D hash t
    · rw [if_neg hs] at h'
      exact Except.noConfusion h'
  | ok data =>
    cases data with
    | none => exact Except.noConfusion h
    | some raw => exact fixAll_ok_length D raw out h v hv

/-- Witness for C6 at `D = 3`: the zero-padded first vector of a service
response with a short, an exact and a long vector has exactly 3 entries,
and the dimension fix on the short vector is truncate-and-pad. -/
theorem C6_witness :
    [(1 : ℚ), 2, 0].length = 3 ∧
    fixDims 3 [(1 : ℚ), 2]
      = [(1 : ℚ), 2].take 3 ++ List.replicate (3 - [(1 : ℚ), 2].length) 0 :=
  ⟨(C6_embedding_dimensionality 3 (fun _ => [7]) ["t"]
      (.ok (some [some [1, 2], some [1, 2, 3], some [1, 2, 3, 4, 5]]))
      [[(1 : ℚ), 2, 0], [1, 2, 3], [1, 2, 3]] rfl).1 [(1 : ℚ), 2, 0] (by simp),
   (C6_embedding_dimensionality 3 (fun _ => [7]) ["t"]
      (.ok (some [some [1, 2], some [1, 2, 3], some [1, 2, 3, 4, 5]]))
      [[(1 : ℚ), 2, 0], [1, 2, 3], [1, 2, 3]] rfl).2.1 [(1 : ℚ), 2]⟩

/-! ## Claim C8 -/

/-- C8: `buildCitations` emits exactly one citation per candidate (no
de-duplication), in the given (final rank) order, and each citation
carries the candidate's id and title, the whitespace-collapsed excerpt of
at most 280 characters of the candidate's content, `trustLevel` `direct`,
the URL derived from the slug, and `relevanceScore` equal to `rerankScore`
when present, otherwise `hybridScore`. -/
theorem C8_buildCitations_shape (now : Nat) (ranked : Option CitableChunk)
    (allRanked : List CitableChunk) :
    (buildCitations now ranked allRanked).length = allRanked.length ∧
    List.Forall₂
      (fun (row : CitableChunk) (c : Citation) =>
        c.id = row.id ∧
        c.articleTitle = row.title ∧
        c.mdnUrl = "https://developer.mozilla.org/en-US/docs/" ++ row.slug ∧
        c.excerpt = jsSlice (collapseWs row.content) 280 ∧
        jsLength c.excerpt ≤ 280 ∧
        c.trustLevel = TrustLevel.direct ∧
        c.relevanceScore = row.rerankScore.getD row.hybridScore)
      allRanked (buildCitations now ranked allRanked) := by
  constructor
  · simp [buildCitations]
  · induction allRanked with
    | nil => exact List.Forall₂.nil
    | cons r rs ih =>
      refine List.Forall₂.cons ?_ ih
      refine ⟨rfl, rfl, rfl, rfl, ?_, rfl, rfl⟩
      simp only [jsLength, jsSlice, List.length_take]
      omega

/-! ## Claim C9 -/

/-- C9 counterexample: the declared default `alpha` of `hybridRank` is
exactly `0.5`, which is not strictly greater than `0.5`; a call that
supplies no `alpha` therefore ranks with equal weighting, as the concrete
instantiation shows. -/
theorem C9_counterexample :
    hybridRankDefaultAlpha = 1/2 ∧ ¬ ((1 : ℚ)/2 < hybridRankDefaultAlpha) ∧
    hybridRankDefault (fun x => x) "q" [demoChunkA, demoChunkB]
      = hybridRank (fun x => x) "q" [demoChunkA, demoChunkB] (1/2) := by
  refine ⟨rfl, ?_, rfl⟩
  rw [hybridRankDefaultAlpha]
  exact lt_irrefl _

/-- C9 amended: the Hybrid Ranker's own default `alpha` is `0.5` (equal
weighting, not lexically biased); the lexical bias (`alpha = 0.6 > 0.5`)
is supplied explicitly by the pipeline call site. -/
theorem C9_default_alpha_half_bias_from_call_site :
    hybridRankDefaultAlpha = 1/2 ∧ pipelineAlpha = 3/5 ∧
    (1 : ℚ)/2 < pipelineAlpha ∧
    ∀ (lg : ℚ → ℚ) (q : String) (cs : List CandidateChunk),
      hybridRankDefault lg q cs = hybridRank lg q cs hybridRankDefaultAlpha := by
  refine ⟨rfl, rfl, ?_, fun lg q cs => rfl⟩
  rw [pipelineAlpha]
  norm_num

/-! ## Claim C10 -/

theorem jsSlice_eighty_ne_empty {s : String} (h : s ≠ "") : jsSlice s 80 ≠ "" := by
  intro hcontra
  apply h
  cases s with
  | mk data =>
    cases data with
    | nil => rfl
    | cons c cs =>
      have hd := congrArg String.data hcontra
      simp [jsSlice] at hd

/-- C10: a request whose `sessionId` names no existing session (or whose
`newSession` flag is set) is not an error: `getOrCreateSessionId` returns
normally, creates a session titled with the first 80 characters of the
question, and returns the new session's id. -/
theorem C10_unknown_session_creates_new (sessions : List SessionRow)
    (freshId : String) (body : ChatRequestBody) (question : String)
    (hq : question ≠ "")
    (h : body.newSession = true ∨
      ∃ sid, body.sessionId = some sid ∧ ∀ s ∈ sessions, s.id ≠ sid) :
    getOrCreateSessionId sessions freshId body question
      = (freshId, sessions ++ [{ id := freshId, title := jsSlice question 80 }]) := by
  have htitle :
      (if jsSlice question 80 = "" then "New chat session" else jsSlice question 80)
        = jsSlice question 80 := if_neg (jsSlice_eighty_ne_empty hq)
  unfold getOrCreateSessionId
  rcases h with hnew | ⟨sid, hsid, hmem⟩
  · rw [hnew]
    simp [htitle]
  · rw [hsid]
    cases hb : body.newSession with
    | true => simp [htitle]
    | false =>
      by_cases hsempty : sid = ""
      · subst hsempty
        simp [htitle]
      · have hany : sessions.any (fun s => s.id = sid) = false := by
          rw [List.any_eq_false]
          intro s hs
          simp [hmem s hs]
        simp [hsempty, hany, htitle]

/-- Witness for C10: a stale `sessionId` that matches no stored session. -/
theorem C10_witness :
    getOrCreateSessionId [{ id := "s0", title := "t" }] "s9"
        { question := some "hello", topicScope := none, sessionId := some "sX",
          newSession := false } "hello"
      = ("s9", [{ id := "s0", title := "t" },
                { id := "s9", title := jsSlice "hello" 80 }]) :=
  C10_unknown_session_creates_new [{ id := "s0", title := "t" }] "s9"
    { question := some "hello", topicScope := none, sessionId := some "sX",
      newSession := false } "hello" (by decide)
    (Or.inr ⟨"sX", rfl, by decide⟩)

/-! ## Claim C4 -/

/-- C4: the question is trimmed, and the request is rejected with a 400
validation error — with an empty invocation trace, hence before the
session store, the embedding service, retrieval or generation is touched —
when the body is malformed JSON, when the trimmed question is empty, and
when the trimmed question exceeds `MAX_QUESTION_LENGTH = 2000`
characters. -/
theorem C4_validation_rejects_before_network (env : Env) (body : ChatRequestBody) :
    runPOST env none = (.errorJson 400 "Invalid JSON body", []) ∧
    (extractQuestion body = "" →
      runPOST env (some body) = (.errorJson 400 "Question is required", [])) ∧
    (jsLength (extractQuestion body) > MAX_QUESTION_LENGTH →
      runPOST env (some body) = (.errorJson 400 "Question is too long", [])) := by
  refine ⟨rfl, ?_, ?_⟩
  · intro h
    simp [runPOST, h]
  · intro hlen
    have hne : extractQuestion body ≠ "" := by
      intro hc
      rw [hc] at hlen
      simp [jsLength, MAX_QUESTION_LENGTH] at hlen
    simp [runPOST, if_neg hne, hlen]

theorem dropWhile_isJsSpace_replicate_a {n : Nat} (hn : 0 < n) :
    List.dropWhile isJsSpace (List.replicate n 'a') = List.replicate n 'a' := by
  cases n with
  | zero => exact absurd hn (lt_irrefl 0)
  | succ m => rw [List.replicate_succ, List.dropWhile_cons, if_neg (by decide)]

theorem jsTrim_demoLongQuestion : jsTrim demoLongQuestion = demoLongQuestion := by
  unfold jsTrim demoLongQuestion
  rw [dropWhile_isJsSpace_replicate_a (by norm_num), List.reverse_replicate,
    dropWhile_isJsSpace_replicate_a (by norm_num), List.reverse_replicate]

theorem jsLength_trim_demoLongQuestion :
    jsLength (jsTrim demoLongQuestion) > MAX_QUESTION_LENGTH := by
  rw [jsTrim_demoLongQuestion]
  show (List.replicate 2001 'a').length > 2000
  rw [List.length_replicate]
  norm_num

/-- Witness for C4: malformed JSON, a whitespace-only question and a
2001-character question are each rejected with an empty trace. -/
theorem C4_witness :
    runPOST demoEnv none = (.errorJson 400 "Invalid JSON body", []) ∧
    runPOST demoEnv
        (some { question := some "  ", topicScope := none,
                sessionId := none, newSession := false })
      = (.errorJson 400 "Question is required", []) ∧
    runPOST demoEnv
        (some { question := some demoLongQuestion, topicScope := none,
                sessionId := none, newSession := false })
      = (.errorJson 400 "Question is too long", []) := by
  refine ⟨(C4_validation_rejects_before_network demoEnv
      { question := none, topicScope := none, sessionId := none,
        newSession := false }).1, ?_, ?_⟩
  · exact (C4_validation_rejects_before_network demoEnv
      { question := some "  ", topicScope := none, sessionId := none,
        newSession := false }).2.1 (by decide)
  · exact (C4_validation_rejects_before_network demoEnv
      { question := some demoLongQuestion, topicScope := none, sessionId := none,
        newSession := false }).2.2 jsLength_trim_demoLongQuestion

/-! ## Claim C5 -/

/-- C5: when retrieval returns zero candidates (and the request passed
validation and embedding), the pipeline answers with the distinct 404
"no relevant content" condition — not the generic 500 upstream failure —
and the trace stops at retrieval: neither answer synthesis nor citation
building is ever invoked. -/
theorem C5_no_candidates_distinct_no_synthesis (env : Env) (body : ChatRequestBody)
    (emb : List ℚ) (rest : List (List ℚ))
    (h1 : extractQuestion body ≠ "")
    (h2 : ¬ jsLength (extractQuestion body) > MAX_QUESTION_LENGTH)
    (hemb : embedWithVoyage env.D env.hash [extractQuestion body] env.voyage
      = .ok (emb :: rest))
    (hret : env.retrieve emb = []) :
    runPOST env (some body)
      = (.errorJson 404 noCandidatesMessage,
         [.sessionCall, .embedCall, .retrieveCall]) ∧
    Call.synthesizeCall ∉ (runPOST env (some body)).2 ∧
    Call.citationsCall ∉ (runPOST env (some body)).2 ∧
    (runPOST env (some body)).1 ≠ .errorJson 500 upstreamErrorMessage := by
  have hmain : runPOST env (some body)
      = (.errorJson 404 noCandidatesMessage,
         [.sessionCall, .embedCall, .retrieveCall]) := by
    simp [runPOST, if_neg h1, h2, hemb, hret]
  refine ⟨hmain, ?_, ?_, ?_⟩
  · rw [hmain]
    decide
  · rw [hmain]
    decide
  · rw [hmain]
    intro hc
    have := congrArg (fun r => match r with
      | ChatResponse.errorJson s _ => s
      | _ => 0) hc
    simp at this

/-- Witness for C5 against the demo environment, whose retrieval oracle
returns no rows. -/
theorem C5_witness :
    runPOST demoEnv
        (some { question := some "hi", topicScope := none,
                sessionId := none, newSession := false })
      = (.errorJson 404 noCandidatesMessage,
         [.sessionCall, .embedCall, .retrieveCall]) :=
  (C5_no_candidates_distinct_no_synthesis demoEnv
      { question := some "hi", topicScope := none, sessionId := none,
        newSession := false }
      [1, 0] [] (by decide) (by decide) rfl rfl).1

end Rag
